import Mathlib

set_option maxRecDepth 8000
set_option maxHeartbeats 1000000

/-!
Verification development for the RSM_DAILY_DEVOTIONALS repository.

The embedding models the two `ContentTracker` class variants of
`content-tracker.js` and the regeneration control loop of
`generate-devotional.js` (first variant, the one that uses the tracker).

Modelling conventions:
- JS strings are Lean `String`s; the JS regex classes are modelled for
  ASCII input: the word class (letters, digits, underscore) and the
  whitespace class.
- All timestamps are epoch milliseconds (`Int`); the JS expression
  `new Date(s).getTime()` is modelled by an explicit parameter
  `parseMs : String -> Int`, and `Date.now()` by an explicit `now : Int`.
- `JSON.parse` is modelled by a parameter `parse : String -> Option _`
  (`none` models a thrown parse exception); file contents are an
  `Option String` (`none` models a missing file).
- SHA-1 hashing of the normalized body is modelled by the normalized
  body itself, an injective stand-in: the code relies on SHA-1 acting as
  a collision-free fingerprint of the normalized text, and every claim
  depends only on equality of hashes.
-/

namespace ContentTracker

/-- JS word-character class (the regex class of letters, digits and
underscore, ASCII). -/
def isWordChar (c : Char) : Bool :=
  c.isAlpha || c.isDigit || c = '_'

/-- JS whitespace class (ASCII part: space, tab, newline, carriage
return, vertical tab, form feed). -/
def isSpaceChar (c : Char) : Bool :=
  c = ' ' || c = '\t' || c = '\n' || c = '\r' || c = Char.ofNat 11 || c = Char.ofNat 12

/-- `text.toLowerCase()` (ASCII case mapping). -/
def lowerChars (l : List Char) : List Char := l.map Char.toLower

/-- `.replace(&#47;[^\w\s]&#47;g, ' ')`: every character that is neither a
word character nor whitespace becomes a space. -/
def stripPunct (l : List Char) : List Char :=
  l.map (fun c => if isWordChar c || isSpaceChar c then c else ' ')

/-- `.replace(&#47;\s+&#47;g, ' ')`: each maximal whitespace run becomes one
space.  The flag records whether the previous character was whitespace. -/
def collapseAux : Bool → List Char → List Char
  | _, [] => []
  | prevSpace, c :: rest =>
    if isSpaceChar c then
      if prevSpace then collapseAux true rest else ' ' :: collapseAux true rest
    else c :: collapseAux false rest

/-- `.trim()`: strip whitespace from both ends. -/
def trimChars (l : List Char) : List Char :=
  ((l.dropWhile isSpaceChar).reverse.dropWhile isSpaceChar).reverse

/-- `ContentTracker.normalize` (first variant): lower-case, strip all
non-word characters to spaces, collapse whitespace, trim. -/
def normalize (s : String) : String :=
  String.mk (trimChars (collapseAux false (stripPunct (lowerChars s.data))))

/-- Maximal runs of word characters of a character list, in order; the
accumulator holds the current run reversed.  `s.split` on a non-word-run
separator also yields empty boundary tokens, but those are removed by the
length filter that always follows in the source, so only the word runs
are produced. -/
def wordRunsAux : List Char → List Char → List (List Char)
  | acc, [] => if acc.isEmpty then [] else [acc.reverse]
  | acc, c :: rest =>
    if isWordChar c then wordRunsAux (c :: acc) rest
    else if acc.isEmpty then wordRunsAux [] rest
    else acc.reverse :: wordRunsAux [] rest

/-- `s.split` on runs of non-word characters, keeping only the word
tokens. -/
def splitWords (s : String) : List String :=
  (wordRunsAux [] s.data).map String.mk

/-- The token set used by `sim`:
`new Set(this.normalize(a).split(..).filter(w => w.length > 3))`. -/
def tokenFinset (s : String) : Finset String :=
  ((splitWords (normalize s)).filter (fun w => w.length > 3)).toFinset

/-- `ContentTracker.sim` (first variant): Jaccard overlap of the token
sets, with a union of size 0 replaced by 1 (the `|| 1` guard). -/
def sim (a b : String) : ℚ :=
  let A := tokenFinset a
  let B := tokenFinset b
  let inter : ℕ := (A ∩ B).card
  let uni : ℕ := (A ∪ B).card
  (inter : ℚ) / (if uni = 0 then 1 else (uni : ℚ))

/-- `ContentTracker.hash`: SHA-1 of the normalized text, modelled as the
normalized text itself (injective stand-in, see the file header). -/
def hash (text : String) : String := normalize text

/-- One element of `data.titles`. -/
structure TitleEntry where
  title : String
  dateUsed : String
  theme : String
deriving DecidableEq

/-- One element of `data.contentHashes`. -/
structure HashEntry where
  hash : String
  dateUsed : String
deriving DecidableEq

/-- One element of `data.scriptureReferences`. -/
structure RefEntry where
  reference : String
  dateUsed : String
  theme : String
deriving DecidableEq

/-- One element of `data.recentScriptures`. -/
structure RecentEntry where
  reference : String
  dateUsed : String
deriving DecidableEq

/-- One element of `data.keyPhrases`. -/
structure KeyPhraseEntry where
  phrase : String
  dateUsed : String
deriving DecidableEq

/-- One element of `data.themes`. -/
structure ThemeEntry where
  category : String
  dateUsed : String
  title : String
deriving DecidableEq

/-- The persisted tracker state of the first variant (`this.data`). -/
structure HistoryData where
  titles : List TitleEntry
  keyPhrases : List KeyPhraseEntry
  scriptureReferences : List RefEntry
  themes : List ThemeEntry
  contentHashes : List HashEntry
  recentScriptures : List RecentEntry
  lastUpdated : String
  totalDevotionals : Nat
deriving DecidableEq

/-- Result of `isTitleUnique`: `{ok: true}` or
`{ok: false, reason, similar}`. -/
inductive TitleCheck where
  | ok
  | notOk (reason : String) (similar : String)
deriving DecidableEq

/-- The loop body of `isTitleUnique`; `n` is the normalized candidate
title, computed once before the loop. -/
def isTitleUniqueGo (n : String) (threshold : ℚ) : List TitleEntry → TitleCheck
  | [] => .ok
  | t :: rest =>
    let m := normalize t.title
    if n = m then .notOk "Exact title match" t.title
    else if sim n m > threshold then .notOk "Title too similar" t.title
    else isTitleUniqueGo n threshold rest

/-- `ContentTracker.isTitleUnique(newTitle, threshold = 0.7)`. -/
def isTitleUnique (newTitle : String) (titles : List TitleEntry)
    (threshold : ℚ := 7/10) : TitleCheck :=
  isTitleUniqueGo (normalize newTitle) threshold titles

/-- Result of `isContentFresh`: `{ok: true}` or
`{ok: false, reason, similarDate}`. -/
inductive ContentCheck where
  | ok
  | notOk (reason : String) (similarDate : String)
deriving DecidableEq

/-- `ContentTracker.isContentFresh(content)`: reject when the hash of the
normalized body already appears in `contentHashes` (first match wins). -/
def isContentFresh (content : String) (contentHashes : List HashEntry) : ContentCheck :=
  match contentHashes.find? (fun x => x.hash == hash content) with
  | some already => .notOk "Content body duplicated" already.dateUsed
  | none => .ok

/-- Result of `isScriptureFresh`: `{ok: true}` or
`{ok: false, reason, lastUsed}`. -/
inductive ScriptureCheck where
  | ok
  | notOk (reason : String) (lastUsed : String)
deriving DecidableEq

/-- `ContentTracker.isScriptureFresh(reference, lookbackDays = 21)`.
An absent reference is the empty string (JS falsiness of the trimmed
reference field).  `cutoff = Date.now() - lookbackDays*86400000`; entries
whose parsed `dateUsed` is at least the cutoff are recent. -/
def isScriptureFresh (parseMs : String → Int) (now : Int)
    (reference : String) (recentScriptures : List RecentEntry)
    (lookbackDays : Int := 21) : ScriptureCheck :=
  if reference = "" then .ok
  else
    let cutoff := now - lookbackDays * 86400000
    let recent := recentScriptures.filter (fun s => decide (cutoff ≤ parseMs s.dateUsed))
    match recent.find? (fun s => normalize s.reference == normalize reference) with
    | some usedRecently =>
      .notOk ("Scripture used in last " ++ toString lookbackDays ++ " days")
        usedRecently.dateUsed
    | none => .ok

/-- A candidate devotional as built by the controller (transient record;
`record` additionally reads only date, title, scriptureReference,
content and theme). -/
structure Devotional where
  date : String
  title : String
  scriptureReference : String
  content : String
  questions : List String
  prayer : String
  theme : String
deriving DecidableEq

/-- Result of `validate`: `{ok: true}` or `{ok: false, ...}` with the
spread fields of the failing check (`similar`, `similarDate` or
`lastUsed` respectively). -/
inductive ValidateResult where
  | ok
  | titleFail (reason : String) (similar : String)
  | contentFail (reason : String) (similarDate : String)
  | scriptureFail (reason : String) (lastUsed : String)
deriving DecidableEq

/-- `ContentTracker.validate(devotional)`: title check, then content
check, then scripture check; the first failing check is returned. -/
def validate (parseMs : String → Int) (now : Int)
    (d : Devotional) (h : HistoryData) : ValidateResult :=
  match isTitleUnique d.title h.titles with
  | .notOk r s => .titleFail r s
  | .ok =>
    match isContentFresh d.content h.contentHashes with
    | .notOk r sd => .contentFail r sd
    | .ok =>
      match isScriptureFresh parseMs now d.scriptureReference h.recentScriptures with
      | .notOk r lu => .scriptureFail r lu
      | .ok => .ok

/-- The `slice(-180)` cap applied after the push in `record`. -/
def capRecent (l : List RecentEntry) : List RecentEntry :=
  if l.length > 180 then l.drop (l.length - 180) else l

/-- `ContentTracker.record(devotional)` followed by the `save()` it
performs: push onto each list (the reference lists only when a reference
is present, the themes list only when a theme is present), cap
`recentScriptures` at 180, and let `save` rewrite `lastUpdated` and
recompute `totalDevotionals`.  `today` models the current-date default
for a missing `devotional.date`, `nowIso` models the timestamp `save`
writes. -/
def record (today nowIso : String) (d : Devotional) (h : HistoryData) : HistoryData :=
  let date := if d.date = "" then today else d.date
  let theme := if d.theme = "" then "rock-solid" else d.theme
  let titles := h.titles ++ [⟨d.title, date, theme⟩]
  { titles := titles
    keyPhrases := h.keyPhrases
    scriptureReferences :=
      if d.scriptureReference = "" then h.scriptureReferences
      else h.scriptureReferences ++ [⟨d.scriptureReference, date, theme⟩]
    themes :=
      if d.theme = "" then h.themes
      else h.themes ++ [⟨d.theme, date, d.title⟩]
    contentHashes := h.contentHashes ++ [⟨hash d.content, date⟩]
    recentScriptures :=
      if d.scriptureReference = "" then h.recentScriptures
      else capRecent (h.recentScriptures ++ [⟨d.scriptureReference, date⟩])
    lastUpdated := nowIso
    totalDevotionals := titles.length }

/-- The fresh empty record `load` falls back to. -/
def freshData (nowIso : String) : HistoryData :=
  { titles := []
    keyPhrases := []
    scriptureReferences := []
    themes := []
    contentHashes := []
    recentScriptures := []
    lastUpdated := nowIso
    totalDevotionals := 0 }

/-- `ContentTracker.load()` (first variant): a missing file
(`fileContents = none`) or a parse failure (`parse s = none`) yields the
fresh empty record; otherwise the parsed state is returned. -/
def load (fileContents : Option String) (parse : String → Option HistoryData)
    (nowIso : String) : HistoryData :=
  match fileContents with
  | some s =>
    match parse s with
    | some d => d
    | none => freshData nowIso
  | none => freshData nowIso

end ContentTracker

namespace ContentTracker2

/-- `text.toLowerCase()` as a `String` operation (ASCII case mapping),
used by `calculateSimilarity` of the second variant, which lower-cases
but does not otherwise normalize before splitting. -/
def lowerStr (s : String) : String :=
  String.mk (ContentTracker.lowerChars s.data)

/-- The token set of `calculateSimilarity`:
`new Set(text.toLowerCase().split(..).filter(w => w.length > 3))`. -/
def tokenFinset2 (s : String) : Finset String :=
  (((ContentTracker.wordRunsAux [] (lowerStr s).data).map String.mk).filter
    (fun w => w.length > 3)).toFinset

/-- `ContentTracker.calculateSimilarity(text1, text2)` (second variant):
intersection over union of the lower-cased token sets, and `0` when the
union is empty. -/
def calculateSimilarity (text1 text2 : String) : ℚ :=
  let words1 := tokenFinset2 text1
  let words2 := tokenFinset2 text2
  let intersection := words1 ∩ words2
  let union := words1 ∪ words2
  if 0 < union.card then (intersection.card : ℚ) / (union.card : ℚ) else 0

/-- The persisted tracker state of the second variant (no
`contentHashes` and no `recentScriptures` lists). -/
structure Data2 where
  titles : List ContentTracker.TitleEntry
  keyPhrases : List ContentTracker.KeyPhraseEntry
  scriptureReferences : List ContentTracker.RefEntry
  themes : List ContentTracker.ThemeEntry
  lastUpdated : String
  totalDevotionals : Nat
deriving DecidableEq

/-- The fresh empty record `loadTracker` falls back to. -/
def fresh2 (nowIso : String) : Data2 :=
  { titles := []
    keyPhrases := []
    scriptureReferences := []
    themes := []
    lastUpdated := nowIso
    totalDevotionals := 0 }

/-- `ContentTracker.loadTracker()` (second variant): same recovery shape
as `load` of the first variant. -/
def loadTracker (fileContents : Option String) (parse : String → Option Data2)
    (nowIso : String) : Data2 :=
  match fileContents with
  | some s =>
    match parse s with
    | some d => d
    | none => fresh2 nowIso
  | none => fresh2 nowIso

end ContentTracker2

namespace Gen

open ContentTracker

/-- `MAX_TRIES` of the main IIFE of `generate-devotional.js`. -/
def MAX_TRIES : Nat := 5

/-- A draft as returned by `callOpenAI` after JSON parsing; absent JSON
fields are modelled by empty strings (the `|| ''` / `|| default`
guards act on them). -/
structure Draft where
  title : String
  scriptureReference : String
  content : String
  questions : List String
  prayer : String
  theme : String
deriving DecidableEq

/-- JS `String.prototype.trim` (ASCII whitespace model). -/
def trimStr (s : String) : String :=
  String.mk (ContentTracker.trimChars s.data)

/-- The newline collapsing of the `md` helper: each maximal run of at
least three newlines becomes exactly two.  The counter holds the length
of the pending newline run. -/
def collapseNlAux : Nat → List Char → List Char
  | n, [] => List.replicate (min n 2) '\n'
  | n, c :: rest =>
    if c = '\n' then collapseNlAux (n + 1) rest
    else List.replicate (min n 2) '\n' ++ c :: collapseNlAux 0 rest

/-- `md(content)`: collapse triple-or-longer newline runs to double
newlines, then trim. -/
def md (content : String) : String :=
  trimStr (String.mk (collapseNlAux 0 content.data))

/-- The candidate built from a draft inside the retry loop. -/
def mkCandidate (today : String) (draft : Draft) : Devotional :=
  { date := today
    title := trimStr draft.title
    scriptureReference := trimStr draft.scriptureReference
    content := md draft.content
    questions := draft.questions
    prayer := trimStr draft.prayer
    theme := trimStr (if draft.theme = "" then "rock-solid" else draft.theme) }

/-- The `while (attempt < MAX_TRIES)` loop: `gen i` is the draft the
external generator returns to the i-th call (0-based); the history is
loaded once and never mutated inside the loop.  Returns the first
accepted candidate, or `none` when every attempt is rejected. -/
def tryFrom (parseMs : String → Int) (now : Int) (today : String)
    (gen : Nat → Draft) (h : HistoryData) : Nat → Nat → Option Devotional
  | _, 0 => none
  | i, fuel + 1 =>
    let candidate := mkCandidate today (gen i)
    match validate parseMs now candidate h with
    | .ok => some candidate
    | _ => tryFrom parseMs now today gen h (i + 1) fuel

/-- The forced fallback candidate: one more unconstrained generation,
with the literal date suffix appended to the trimmed (or defaulted)
title.  It is never passed to `validate`. -/
def fallbackResult (today : String) (fb : Draft) : Devotional :=
  { date := today
    title := trimStr (if fb.title = "" then "Rock Solid Man" else fb.title) ++ " — " ++ today
    scriptureReference := trimStr fb.scriptureReference
    content := md fb.content
    questions := fb.questions
    prayer := trimStr fb.prayer
    theme := trimStr (if fb.theme = "" then "rock-solid" else fb.theme) }

/-- The devotional the run produces: the first accepted candidate of the
bounded loop, or the fallback candidate built from the one extra
generator call (index `MAX_TRIES`). -/
def runResult (parseMs : String → Int) (now : Int) (today : String)
    (gen : Nat → Draft) (h : HistoryData) : Devotional :=
  match tryFrom parseMs now today gen h 0 MAX_TRIES with
  | some c => c
  | none => fallbackResult today (gen MAX_TRIES)

/-- The tracker state after the run: the produced devotional is recorded
exactly once (`tracker2.record(recordPayload)`), on both the accepted
and the fallback path, with no further validation. -/
def runFinalHistory (parseMs : String → Int) (now : Int) (today nowIso : String)
    (gen : Nat → Draft) (h : HistoryData) : HistoryData :=
  record today nowIso (runResult parseMs now today gen h) h

end Gen

namespace Examples

open ContentTracker Gen

/-- A date-string parser that maps every date string to time 0. -/
def pmZero : String → Int := fun _ => 0

/-- A ten-token title; every token is longer than three characters. -/
def titleTen : String :=
  "alpha bravo charlie delta epsilon foxtrot gamma hotel india juliet"

/-- A ten-token title differing from `titleTen` in its last two tokens. -/
def titleTenDiff2 : String :=
  "alpha bravo charlie delta epsilon foxtrot gamma hotel sigma omega"

/-- A ten-token title differing from `titleTen` in its last four tokens. -/
def titleTenDiff4 : String :=
  "alpha bravo charlie delta epsilon foxtrot kappa lambda sigma omega"

/-- The first seven tokens of `titleTen`: Jaccard overlap with `titleTen`
is exactly 7&#47;10. -/
def titleSeven : String := "alpha bravo charlie delta epsilon foxtrot gamma"

/-- The first eight tokens of `titleTen`: Jaccard overlap with `titleTen`
is 8&#47;10. -/
def titleEight : String := "alpha bravo charlie delta epsilon foxtrot gamma hotel"

/-- A history holding one accepted entry, for the controller and
validator examples. -/
def hWalking : HistoryData :=
  { titles := [⟨"Walking in Faith", "2025-01-01", "faith"⟩]
    keyPhrases := []
    scriptureReferences := [⟨"John 3:16", "2025-01-01", "faith"⟩]
    themes := [⟨"faith", "2025-01-01", "Walking in Faith"⟩]
    contentHashes := [⟨ContentTracker.hash "Trust God daily.", "2025-01-01"⟩]
    recentScriptures := [⟨"John 3:16", "2025-01-01"⟩]
    lastUpdated := "2025-01-01"
    totalDevotionals := 1 }

/-- A generator that always returns the same draft, whose title exactly
matches the stored title of `hWalking`: every loop attempt is rejected. -/
def genStuck : Nat → Draft :=
  fun _ => ⟨"Walking in Faith", "Romans 8:28", "New reflection words.", [], "Amen.", "faith"⟩

/-- A candidate with duplicated body content and an exactly matching
title (for the C5 counterexample). -/
def cDupBoth : Devotional :=
  ⟨"2025-01-02", "Walking in Faith", "Romans 8:28", "Trust God daily.", [], "", "faith"⟩

/-- A candidate with duplicated body content but a fresh title (for the
C5 witness). -/
def cDupContent : Devotional :=
  ⟨"2025-01-02", "Steadfast Courage Endures", "Romans 8:28", "Trust God daily.", [], "", "faith"⟩

/-- The current time used in the cooldown examples: day 100 in epoch
milliseconds. -/
def now100 : Int := 100 * 86400000

/-- A date parser for the cooldown examples: `d20` parses to 20 days
before `now100`, `d22` to 22 days before, everything else to 0. -/
def pmDays : String → Int := fun s =>
  if s = "d20" then now100 - 20 * 86400000
  else if s = "d22" then now100 - 22 * 86400000
  else 0

/-- A candidate whose only obstacle is its recently used reference (for
the C8 counterexample). -/
def cRefOnly : Devotional :=
  ⟨"2025-01-02", "Fresh Morning Hope", "John 3:16", "Entirely new words today.", [], "", ""⟩

/-- A history whose only content is one recent reference use (for the C8
counterexample). -/
def hRefOnly : HistoryData :=
  { titles := []
    keyPhrases := []
    scriptureReferences := []
    themes := []
    contentHashes := []
    recentScriptures := [⟨"John 3:16", "d"⟩]
    lastUpdated := ""
    totalDevotionals := 0 }

/-- A history with no stored titles but one stored content hash (for the
C5 witness: the title check passes trivially). -/
def hNoTitles : HistoryData :=
  { titles := []
    keyPhrases := []
    scriptureReferences := []
    themes := []
    contentHashes := [⟨ContentTracker.hash "Trust God daily.", "2025-01-01"⟩]
    recentScriptures := []
    lastUpdated := "2025-01-01"
    totalDevotionals := 0 }

/-- 200 devotionals carrying the distinct references `ref0` .. `ref199`
(for the C7 cap example). -/
def ds200 : List Devotional :=
  (List.range 200).map (fun i => ⟨"2025-01-01", "", "ref" ++ toString i, "", [], "", ""⟩)

/-- The reference entries of the last 180 of the 200 appends. -/
def expected180 : List RecentEntry :=
  ((List.range 200).drop 20).map (fun i => ⟨"ref" ++ toString i, "2025-01-01"⟩)

end Examples

namespace ContentTracker

/-- Folding `record` over a sequence of devotionals (a sequence of
accepted appends). -/
def records (today nowIso : String) (ds : List Devotional) (h : HistoryData) : HistoryData :=
  ds.foldl (fun h d => record today nowIso d h) h

/-- The full logical reference-append sequence a devotional list
generates: one entry per devotional that carries a reference. -/
def fullRefs (today : String) (ds : List Devotional) : List RecentEntry :=
  ds.filterMap (fun d =>
    if d.scriptureReference = "" then none
    else some ⟨d.scriptureReference, if d.date = "" then today else d.date⟩)

/-- The last `n` elements of a list. -/
def takeLast (n : Nat) (l : List RecentEntry) : List RecentEntry :=
  l.drop (l.length - n)

end ContentTracker

namespace ContentTracker

theorem space_not_word {c : Char} (h : isSpaceChar c = true) : isWordChar c = false := by
  simp only [isSpaceChar, Bool.or_eq_true, decide_eq_true_eq] at h
  rcases h with ((((h | h) | h) | h) | h) | h <;> subst h <;> decide

theorem wordRunsAux_nil (acc : List Char) :
    wordRunsAux acc [] = if acc.isEmpty then [] else [acc.reverse] := rfl

theorem wordRunsAux_stripPunct (l : List Char) :
    ∀ acc, wordRunsAux acc (stripPunct l) = wordRunsAux acc l := by
  induction l with
  | nil => intro acc; rfl
  | cons c l ih =>
    intro acc
    have hmap : stripPunct (c :: l)
        = (if isWordChar c || isSpaceChar c then c else ' ') :: stripPunct l := rfl
    by_cases hw : isWordChar c = true
    · have hcond : (isWordChar c || isSpaceChar c) = true := by simp [hw]
      rw [hmap, if_pos hcond]
      simp only [wordRunsAux, hw, if_true]
      exact ih _
    · have hwf : isWordChar c = false := by simpa using hw
      by_cases hs : isSpaceChar c = true
      · have hcond : (isWordChar c || isSpaceChar c) = true := by simp [hs]
        rw [hmap, if_pos hcond]
        simp only [wordRunsAux, hwf, Bool.false_eq_true, if_false]
        rcases acc with _ | ⟨a, acc⟩
        · simpa using ih []
        · simpa using ih []
      · have hcond : (isWordChar c || isSpaceChar c) = false := by
          simp [hwf]; simpa using hs
        rw [hmap, if_neg (by simp [hcond])]
        have hw' : isWordChar ' ' = false := by decide
        simp only [wordRunsAux, hwf, hw', Bool.false_eq_true, if_false]
        rcases acc with _ | ⟨a, acc⟩
        · simpa using ih []
        · simpa using ih []

theorem wordRunsAux_allSpace (s : List Char) (hs : ∀ c ∈ s, isSpaceChar c = true) :
    ∀ acc, wordRunsAux acc s = if acc.isEmpty then [] else [acc.reverse] := by
  induction s with
  | nil => intro acc; rfl
  | cons c s ih =>
    intro acc
    have hc : isSpaceChar c = true := hs c (List.mem_cons_self c s)
    have hw : isWordChar c = false := space_not_word hc
    have ih' := ih (fun d hd => hs d (List.mem_cons_of_mem c hd))
    simp only [wordRunsAux, hw, Bool.false_eq_true, if_false]
    rcases acc with _ | ⟨a, acc⟩
    · simpa using ih' []
    · simpa using ih' []

theorem wordRunsAux_append_space (s : List Char) (hs : ∀ c ∈ s, isSpaceChar c = true)
    (l : List Char) : ∀ acc, wordRunsAux acc (l ++ s) = wordRunsAux acc l := by
  induction l with
  | nil =>
    intro acc
    rw [List.nil_append, wordRunsAux_allSpace s hs acc, wordRunsAux_nil]
  | cons c l ih =>
    intro acc
    simp only [List.cons_append, wordRunsAux]
    by_cases hw : isWordChar c = true
    · simp only [hw, if_true]
      exact ih _
    · have hwf : isWordChar c = false := by simpa using hw
      simp only [hwf, Bool.false_eq_true, if_false]
      rcases acc with _ | ⟨a, acc⟩
      · simpa using ih []
      · simpa using ih []

theorem wordRunsAux_dropWhile_space (l : List Char) :
    wordRunsAux [] (l.dropWhile isSpaceChar) = wordRunsAux [] l := by
  induction l with
  | nil => rfl
  | cons c l ih =>
    by_cases hc : isSpaceChar c = true
    · have hw : isWordChar c = false := space_not_word hc
      rw [List.dropWhile_cons_of_pos hc]
      rw [ih]
      simp [wordRunsAux, hw]
    · rw [List.dropWhile_cons_of_neg (by simpa using hc)]

theorem wordRuns_trimChars (l : List Char) :
    wordRunsAux [] (trimChars l) = wordRunsAux [] l := by
  unfold trimChars
  set m := l.dropWhile isSpaceChar with hm
  have hdecomp : m = ((m.reverse.dropWhile isSpaceChar).reverse)
      ++ (m.reverse.takeWhile isSpaceChar).reverse := by
    have h1 : m.reverse.takeWhile isSpaceChar ++ m.reverse.dropWhile isSpaceChar
        = m.reverse := List.takeWhile_append_dropWhile isSpaceChar m.reverse
    calc m = m.reverse.reverse := (List.reverse_reverse m).symm
    _ = (m.reverse.takeWhile isSpaceChar ++ m.reverse.dropWhile isSpaceChar).reverse := by
        rw [h1]
    _ = _ := by rw [List.reverse_append]
  have hspaces : ∀ c ∈ (m.reverse.takeWhile isSpaceChar).reverse, isSpaceChar c = true := by
    intro c hc
    exact List.mem_takeWhile_imp (List.mem_reverse.mp hc)
  calc wordRunsAux [] ((m.reverse.dropWhile isSpaceChar).reverse)
      = wordRunsAux [] (((m.reverse.dropWhile isSpaceChar).reverse)
          ++ (m.reverse.takeWhile isSpaceChar).reverse) :=
        (wordRunsAux_append_space _ hspaces _ []).symm
    _ = wordRunsAux [] m := by rw [← hdecomp]
    _ = wordRunsAux [] l := wordRunsAux_dropWhile_space l

theorem wordRuns_collapse (l : List Char) :
    (∀ acc, wordRunsAux acc (collapseAux false l) = wordRunsAux acc l)
    ∧ wordRunsAux [] (collapseAux true l) = wordRunsAux [] l := by
  induction l with
  | nil => exact ⟨fun acc => rfl, rfl⟩
  | cons c l ih =>
    obtain ⟨ihf, iht⟩ := ih
    by_cases hc : isSpaceChar c = true
    · have hw : isWordChar c = false := space_not_word hc
      constructor
      · intro acc
        simp only [collapseAux, hc, if_true]
        simp only [wordRunsAux, hw, Bool.false_eq_true, if_false]
        have hw' : isWordChar ' ' = false := by decide
        rcases acc with _ | ⟨a, acc⟩
        · simpa [wordRunsAux, hw'] using iht
        · simpa [wordRunsAux, hw'] using iht
      · simp only [collapseAux, hc, if_true]
        simp only [wordRunsAux, hw, Bool.false_eq_true, if_false, List.isEmpty_nil, if_true]
        exact iht
    · have hcf : isSpaceChar c = false := by simpa using hc
      have hcol : ∀ b, collapseAux b (c :: l) = c :: collapseAux false l := by
        intro b; simp [collapseAux, hcf]
      constructor
      · intro acc
        rw [hcol false]
        by_cases hw : isWordChar c = true
        · simp only [wordRunsAux, hw, if_true]
          exact ihf _
        · have hwf : isWordChar c = false := by simpa using hw
          simp only [wordRunsAux, hwf, Bool.false_eq_true, if_false]
          rcases acc with _ | ⟨a, acc⟩
          · simpa using ihf []
          · simpa using ihf []
      · rw [hcol true]
        by_cases hw : isWordChar c = true
        · simp only [wordRunsAux, hw, if_true]
          exact ihf _
        · have hwf : isWordChar c = false := by simpa using hw
          simp only [wordRunsAux, hwf, Bool.false_eq_true, if_false, List.isEmpty_nil, if_true]
          simpa using ihf []

theorem wordRuns_normalize (s : String) :
    wordRunsAux [] (normalize s).data = wordRunsAux [] (lowerChars s.data) := by
  show wordRunsAux [] (trimChars (collapseAux false (stripPunct (lowerChars s.data))))
      = wordRunsAux [] (lowerChars s.data)
  rw [wordRuns_trimChars, (wordRuns_collapse _).1, wordRunsAux_stripPunct]

theorem tokenFinset_eq_tokenFinset2 (s : String) :
    tokenFinset s = ContentTracker2.tokenFinset2 s := by
  unfold tokenFinset ContentTracker2.tokenFinset2 splitWords
  rw [wordRuns_normalize]
  rfl

theorem sim_bounds (a b : String) : 0 ≤ sim a b ∧ sim a b ≤ 1 := by
  simp only [sim]
  set A := tokenFinset a
  set B := tokenFinset b
  have hsub : (A ∩ B).card ≤ (A ∪ B).card :=
    Finset.card_le_card Finset.inter_subset_union
  by_cases h0 : (A ∪ B).card = 0
  · have hint : (A ∩ B).card = 0 := Nat.le_zero.mp (h0 ▸ hsub)
    simp [h0, hint]
  · rw [if_neg h0]
    have hpos : (0 : ℚ) < ((A ∪ B).card : ℚ) := by
      exact_mod_cast Nat.pos_of_ne_zero h0
    constructor
    · positivity
    · rw [div_le_one hpos]
      exact_mod_cast hsub

theorem sim_comm (a b : String) : sim a b = sim b a := by
  simp only [sim]
  rw [Finset.inter_comm, Finset.union_comm]

theorem sim_self (a : String) (h : tokenFinset a ≠ ∅) : sim a a = 1 := by
  simp only [sim]
  rw [Finset.inter_self, Finset.union_self]
  have hc : (tokenFinset a).card ≠ 0 := by
    simpa [Finset.card_eq_zero] using h
  rw [if_neg hc]
  exact div_self (by exact_mod_cast hc)

theorem sim_eval (a b : String) (i u : ℕ)
    (hi : (tokenFinset a ∩ tokenFinset b).card = i)
    (hu : (tokenFinset a ∪ tokenFinset b).card = u) (hu0 : u ≠ 0) :
    sim a b = (i : ℚ) / (u : ℚ) := by
  simp only [sim]
  rw [hi, hu, if_neg hu0]

end ContentTracker

open ContentTracker Gen Examples

/-- C10: the similarity functions of the two ContentTracker variants are
extensionally equal: `sim` (first variant, full normalization before
tokenizing) and `calculateSimilarity` (second variant, lower-casing only)
agree on every pair of input strings, including the value 0 when both
token sets are empty. -/
theorem C10_sim_equivalence (a b : String) :
    sim a b = ContentTracker2.calculateSimilarity a b := by
  simp only [sim, ContentTracker2.calculateSimilarity,
    tokenFinset_eq_tokenFinset2]
  set A := ContentTracker2.tokenFinset2 a
  set B := ContentTracker2.tokenFinset2 b
  by_cases h0 : (A ∪ B).card = 0
  · have hint : (A ∩ B).card = 0 :=
      Nat.le_zero.mp (h0 ▸ Finset.card_le_card Finset.inter_subset_union)
    simp [h0, hint]
  · rw [if_neg h0, if_pos (Nat.pos_of_ne_zero h0)]

/-- C4 counterexample: the claim asserts `similarity(a,a) = 1` for every
non-empty normalized string `a`, but the normalized non-empty string
`go` has no token longer than three characters, so both token sets are
empty and `sim go go = 0`. -/
theorem C4_counterexample :
    normalize "go" = "go" ∧ ("go" : String) ≠ "" ∧ sim "go" "go" = 0 := by
  refine ⟨by decide, by decide, ?_⟩
  show (((tokenFinset "go" ∩ tokenFinset "go").card : ℕ) : ℚ)
      / (if (tokenFinset "go" ∪ tokenFinset "go").card = 0 then 1
         else ((tokenFinset "go" ∪ tokenFinset "go").card : ℚ)) = 0
  norm_num [show tokenFinset "go" = ∅ by decide]

/-- C4 amended: `sim` is symmetric and takes values in `[0,1]` for all
inputs, and `sim a a = 1` holds for every `a` whose filtered token set is
non-empty (instead of: for every non-empty `a`). -/
theorem C4_sim_algebra (a b : String) :
    sim a b = sim b a
    ∧ (tokenFinset a ≠ ∅ → sim a a = 1)
    ∧ 0 ≤ sim a b ∧ sim a b ≤ 1 :=
  ⟨sim_comm a b, sim_self a, (sim_bounds a b).1, (sim_bounds a b).2⟩

/-- C4 witness: the amended theorem applied at a concrete string with a
non-empty token set. -/
theorem C4_sim_algebra_witness : sim "faithful" "faithful" = 1 :=
  (C4_sim_algebra "faithful" "faithful").2.1 (by decide)

theorem isTitleUniqueGo_ok_iff (n : String) (th : ℚ) (ts : List TitleEntry) :
    isTitleUniqueGo n th ts = .ok ↔
      ∀ t ∈ ts, n ≠ normalize t.title ∧ sim n (normalize t.title) ≤ th := by
  induction ts with
  | nil => simp [isTitleUniqueGo]
  | cons t ts ih =>
    by_cases he : n = normalize t.title
    · simp [isTitleUniqueGo, he]
    · by_cases hs : sim n (normalize t.title) > th
      · simp only [isTitleUniqueGo, if_neg he, if_pos hs]
        simp only [List.mem_cons, forall_eq_or_imp]
        constructor
        · intro h; simp at h
        · rintro ⟨⟨-, hle⟩, -⟩; exact absurd hs (not_lt.mpr hle)
      · simp only [isTitleUniqueGo, if_neg he, if_neg hs]
        rw [ih]
        simp only [List.mem_cons, forall_eq_or_imp]
        constructor
        · intro h; exact ⟨⟨he, not_lt.mp hs⟩, h⟩
        · rintro ⟨-, h⟩; exact h

theorem isTitleUniqueGo_notOk (n : String) (th : ℚ) (ts : List TitleEntry)
    (r s : String) (h : isTitleUniqueGo n th ts = .notOk r s) :
    ∃ t ∈ ts, t.title = s ∧
      ((r = "Exact title match" ∧ n = normalize t.title)
       ∨ (r = "Title too similar" ∧ sim n (normalize t.title) > th)) := by
  induction ts with
  | nil => simp [isTitleUniqueGo] at h
  | cons t ts ih =>
    by_cases he : n = normalize t.title
    · refine ⟨t, List.mem_cons_self t ts, ?_⟩
      simp only [isTitleUniqueGo, if_pos he, TitleCheck.notOk.injEq] at h
      exact ⟨h.2, Or.inl ⟨h.1.symm, he⟩⟩
    · by_cases hs : sim n (normalize t.title) > th
      · refine ⟨t, List.mem_cons_self t ts, ?_⟩
        simp only [isTitleUniqueGo, if_neg he, if_pos hs, TitleCheck.notOk.injEq] at h
        exact ⟨h.2, Or.inr ⟨h.1.symm, hs⟩⟩
      · simp only [isTitleUniqueGo, if_neg he, if_neg hs] at h
        obtain ⟨u, hu, hrest⟩ := ih h
        exact ⟨u, List.mem_cons_of_mem t hu, hrest⟩

/-- Jaccard overlap of `titleTen` with the ten-token title differing in
its last two tokens: 8 shared tokens over a 12-token union. -/
theorem simTenDiff2 : sim (normalize titleTen) (normalize titleTenDiff2) = 2/3 :=
  (sim_eval _ _ 8 12 (by decide) (by decide) (by decide)).trans (by norm_num)

/-- Jaccard overlap of `titleTen` with the ten-token title differing in
its last four tokens: 6 shared tokens over a 14-token union. -/
theorem simTenDiff4 : sim (normalize titleTen) (normalize titleTenDiff4) = 3/7 :=
  (sim_eval _ _ 6 14 (by decide) (by decide) (by decide)).trans (by norm_num)

/-- Jaccard overlap of `titleTen` with its first seven tokens: exactly
7&#47;10. -/
theorem simTenSeven : sim (normalize titleTen) (normalize titleSeven) = 7/10 :=
  (sim_eval _ _ 7 10 (by decide) (by decide) (by decide)).trans (by norm_num)

/-- Jaccard overlap of `titleTen` with its first eight tokens: 8&#47;10. -/
theorem simTenEight : sim (normalize titleTen) (normalize titleEight) = 4/5 :=
  (sim_eval _ _ 8 10 (by decide) (by decide) (by decide)).trans (by norm_num)

/-- C3 counterexample: under the Jaccard (intersection over union)
similarity the claim fails at concrete inputs.  Two ten-token titles
differing in two tokens have similarity 2&#47;3 (not 0.8) and the
candidate is accepted (not rejected); and a candidate whose overlap with
a stored title is exactly 70 percent (similarity exactly 7&#47;10) is
also accepted, although the claim says a similarity of at least 70
percent is rejected. -/
theorem C3_counterexample :
    sim (normalize titleTen) (normalize titleTenDiff2) = 2/3
    ∧ isTitleUnique titleTenDiff2 [⟨titleTen, "2025-01-01", "faith"⟩] = .ok
    ∧ sim (normalize titleTen) (normalize titleSeven) = 7/10
    ∧ isTitleUnique titleTen [⟨titleSeven, "2025-01-01", "faith"⟩] = .ok := by
  refine ⟨simTenDiff2, ?_, simTenSeven, ?_⟩
  · unfold isTitleUnique
    rw [isTitleUniqueGo_ok_iff]
    intro t ht
    rw [List.mem_singleton] at ht
    subst ht
    refine ⟨by decide, ?_⟩
    rw [sim_comm]
    rw [show (⟨titleTen, "2025-01-01", "faith"⟩ : TitleEntry).title = titleTen from rfl,
      simTenDiff2]
    norm_num
  · unfold isTitleUnique
    rw [isTitleUniqueGo_ok_iff]
    intro t ht
    rw [List.mem_singleton] at ht
    subst ht
    refine ⟨by decide, ?_⟩
    rw [show (⟨titleSeven, "2025-01-01", "faith"⟩ : TitleEntry).title = titleSeven from rfl,
      simTenSeven]

/-- C3 amended: the title check rejects a candidate exactly at the first
stored title whose normalized form equals the candidate normalized title
(reason `Exact title match`) or whose similarity with it strictly
exceeds the threshold 0.7 (reason `Title too similar`, with the matched
stored title in the payload); a candidate that is not a normalized exact
match of any stored title and has similarity at most 0.7 with every
stored title passes.  Concretely: two ten-token titles differing in four
tokens have similarity 3&#47;7 and are accepted, differing in two tokens
similarity 2&#47;3 and are accepted, and a ten-token candidate covering
all eight tokens of a stored eight-token title has similarity 4&#47;5 and
is rejected with `Title too similar` and the matched title. -/
theorem C3_title_check_amended :
    (∀ cand ts, isTitleUnique cand ts = .ok ↔
      ∀ t ∈ ts, normalize cand ≠ normalize t.title
        ∧ sim (normalize cand) (normalize t.title) ≤ 7/10)
    ∧ (∀ cand ts r s, isTitleUnique cand ts = .notOk r s →
        ∃ t ∈ ts, t.title = s ∧
          ((r = "Exact title match" ∧ normalize cand = normalize t.title)
           ∨ (r = "Title too similar"
              ∧ sim (normalize cand) (normalize t.title) > 7/10)))
    ∧ sim (normalize titleTen) (normalize titleTenDiff4) = 3/7
    ∧ isTitleUnique titleTenDiff4 [⟨titleTen, "2025-01-01", "faith"⟩] = .ok
    ∧ sim (normalize titleTen) (normalize titleEight) = 4/5
    ∧ isTitleUnique titleTen [⟨titleEight, "2025-01-01", "faith"⟩]
        = .notOk "Title too similar" titleEight := by
  refine ⟨?_, ?_, simTenDiff4, ?_, simTenEight, ?_⟩
  · intro cand ts
    exact isTitleUniqueGo_ok_iff (normalize cand) (7/10) ts
  · intro cand ts r s h
    exact isTitleUniqueGo_notOk (normalize cand) (7/10) ts r s h
  · unfold isTitleUnique
    rw [isTitleUniqueGo_ok_iff]
    intro t ht
    rw [List.mem_singleton] at ht
    subst ht
    refine ⟨by decide, ?_⟩
    rw [sim_comm]
    rw [show (⟨titleTen, "2025-01-01", "faith"⟩ : TitleEntry).title = titleTen from rfl,
      simTenDiff4]
    norm_num
  · unfold isTitleUnique
    simp only [isTitleUniqueGo]
    rw [if_neg (by decide :
      ¬(normalize titleTen
        = normalize (⟨titleEight, "2025-01-01", "faith"⟩ : TitleEntry).title))]
    rw [if_pos ?hgt]
    case hgt =>
      rw [simTenEight]
      norm_num

/-- C3 witness: the general part of the amended theorem applied at a
concrete candidate with an empty store, with the hypothesis of the
backward direction discharged by computation. -/
theorem C3_title_check_amended_witness :
    isTitleUnique "Quiet Strength Endures" [] = .ok :=
  (C3_title_check_amended.1 "Quiet Strength Endures" []).mpr (by simp)

/-- C2: for every candidate and history, `validate` applies exactly the
three checks in the fixed order title uniqueness, content-hash
freshness, reference cooldown, and the first failing check determines
the returned rejection (the later checks cannot influence the result);
it returns accepted exactly when all three checks pass. -/
theorem C2_validate_order (parseMs : String → Int) (now : Int)
    (d : Devotional) (h : HistoryData) :
    (validate parseMs now d h = .ok ↔
      isTitleUnique d.title h.titles = .ok
      ∧ isContentFresh d.content h.contentHashes = .ok
      ∧ isScriptureFresh parseMs now d.scriptureReference h.recentScriptures = .ok)
    ∧ (∀ r s, isTitleUnique d.title h.titles = .notOk r s →
        validate parseMs now d h = .titleFail r s)
    ∧ (∀ r sd, isTitleUnique d.title h.titles = .ok →
        isContentFresh d.content h.contentHashes = .notOk r sd →
        validate parseMs now d h = .contentFail r sd)
    ∧ (∀ r lu, isTitleUnique d.title h.titles = .ok →
        isContentFresh d.content h.contentHashes = .ok →
        isScriptureFresh parseMs now d.scriptureReference h.recentScriptures = .notOk r lu →
        validate parseMs now d h = .scriptureFail r lu) := by
  rcases ht : isTitleUnique d.title h.titles with _ | ⟨r1, s1⟩ <;>
    rcases hc : isContentFresh d.content h.contentHashes with _ | ⟨r2, sd2⟩ <;>
    rcases hs : isScriptureFresh parseMs now d.scriptureReference h.recentScriptures
      with _ | ⟨r3, lu3⟩ <;>
    refine ⟨?_, ?_, ?_, ?_⟩ <;>
    simp [validate, ht, hc, hs]

/-- C2 witness: the theorem applied at a concrete candidate and history
whose title exactly matches a stored one, discharging the hypothesis of
the title-failure implication by computation. -/
theorem C2_validate_order_witness :
    validate pmZero 0 cDupBoth hWalking = .titleFail "Exact title match" "Walking in Faith" :=
  (C2_validate_order pmZero 0 cDupBoth hWalking).2.1 "Exact title match"
    "Walking in Faith" (by decide)

/-- C5 counterexample: a candidate whose body is byte-identical (after
normalization) to a previously accepted body is NOT always rejected with
the content-duplication reason: when its title also exactly matches a
stored title, the title check fires first and `validate` returns the
title reason instead. -/
theorem C5_counterexample :
    (hWalking.contentHashes.find?
      (fun x : HashEntry => x.hash == ContentTracker.hash cDupBoth.content)).isSome = true
    ∧ validate pmZero 0 cDupBoth hWalking = .titleFail "Exact title match" "Walking in Faith" := by
  refine ⟨by decide, by decide⟩

/-- C5 amended: provided the candidate title passes the title-uniqueness
check, a candidate whose normalized body hash already appears in
`contentHashes` is always rejected with `Content body duplicated`
carrying the date of the first matching stored hash, regardless of the
candidate reference; when the title check fails first, its reason is
returned instead. -/
theorem C5_content_dup_amended (parseMs : String → Int) (now : Int)
    (d : Devotional) (h : HistoryData) (e : HashEntry)
    (ht : isTitleUnique d.title h.titles = .ok)
    (hf : h.contentHashes.find?
      (fun x : HashEntry => x.hash == ContentTracker.hash d.content) = some e) :
    validate parseMs now d h = .contentFail "Content body duplicated" e.dateUsed := by
  simp [validate, isContentFresh, ht, hf]

/-- C5 witness: the amended theorem applied at a concrete candidate with
a fresh title, a duplicated body, and a reference, discharging both
hypotheses by computation. -/
theorem C5_content_dup_amended_witness :
    validate pmZero 0 cDupContent hNoTitles
      = .contentFail "Content body duplicated" "2025-01-01" :=
  C5_content_dup_amended pmZero 0 cDupContent hNoTitles
    ⟨ContentTracker.hash "Trust God daily.", "2025-01-01"⟩ (by decide) (by decide)

/-- C9: `load` never propagates a failure: with a missing history file or
a failing parse of the persisted state it returns the fresh empty record
(all lists empty, zero total); the same holds for the second variant
`loadTracker` with its fresh record. -/
theorem C9_load_recovers :
    (∀ parse nowIso, load none parse nowIso = freshData nowIso)
    ∧ (∀ parse nowIso s, parse s = none → load (some s) parse nowIso = freshData nowIso)
    ∧ (∀ nowIso, (freshData nowIso).titles = []
        ∧ (freshData nowIso).keyPhrases = []
        ∧ (freshData nowIso).scriptureReferences = []
        ∧ (freshData nowIso).themes = []
        ∧ (freshData nowIso).contentHashes = []
        ∧ (freshData nowIso).recentScriptures = []
        ∧ (freshData nowIso).totalDevotionals = 0)
    ∧ (∀ parse nowIso,
        ContentTracker2.loadTracker none parse nowIso = ContentTracker2.fresh2 nowIso)
    ∧ (∀ parse nowIso s, parse s = none →
        ContentTracker2.loadTracker (some s) parse nowIso = ContentTracker2.fresh2 nowIso)
    ∧ (∀ nowIso, (ContentTracker2.fresh2 nowIso).titles = []
        ∧ (ContentTracker2.fresh2 nowIso).keyPhrases = []
        ∧ (ContentTracker2.fresh2 nowIso).scriptureReferences = []
        ∧ (ContentTracker2.fresh2 nowIso).themes = []
        ∧ (ContentTracker2.fresh2 nowIso).totalDevotionals = 0) := by
  refine ⟨fun parse nowIso => rfl, ?_,
    fun nowIso => ⟨rfl, rfl, rfl, rfl, rfl, rfl, rfl⟩,
    fun parse nowIso => rfl, ?_,
    fun nowIso => ⟨rfl, rfl, rfl, rfl, rfl⟩⟩
  · intro parse nowIso s hp
    simp [load, hp]
  · intro parse nowIso s hp
    simp [ContentTracker2.loadTracker, hp]

/-- C9 witness: the parse-failure branch applied at a concrete corrupt
file content and an always-failing parser. -/
theorem C9_load_recovers_witness :
    load (some "not json") (fun _ => none) "2025-01-02" = freshData "2025-01-02" :=
  C9_load_recovers.2.1 (fun _ => none) "2025-01-02" "not json" rfl

namespace ContentTracker

theorem isScriptureFresh_ne_ok_iff (parseMs : String → Int) (now : Int)
    (r : String) (entries : List RecentEntry) (hr : r ≠ "") :
    isScriptureFresh parseMs now r entries ≠ .ok ↔
      ∃ e ∈ entries, now - 21 * 86400000 ≤ parseMs e.dateUsed
        ∧ normalize e.reference = normalize r := by
  simp only [isScriptureFresh, if_neg hr]
  rcases hf : List.find? (fun s => normalize s.reference == normalize r)
      (List.filter (fun s => decide (now - 21 * 86400000 ≤ parseMs s.dateUsed)) entries)
    with _ | e
  · rw [hf]
    constructor
    · intro h
      exact absurd rfl h
    · rintro ⟨e, he, hrec, hnorm⟩
      rw [List.find?_eq_none] at hf
      have hin : e ∈ List.filter
          (fun s => decide (now - 21 * 86400000 ≤ parseMs s.dateUsed)) entries :=
        List.mem_filter.mpr ⟨he, by simpa using hrec⟩
      exact absurd (by simpa using hnorm) (by simpa using hf e hin)
  · rw [hf]
    constructor
    · intro _
      have hmem := List.mem_of_find?_eq_some hf
      have hp := List.find?_some hf
      rw [List.mem_filter] at hmem
      exact ⟨e, hmem.1, by simpa using hmem.2, by simpa using hp⟩
    · intro _ hcon
      cases hcon

end ContentTracker

/-- C6: for a candidate carrying a reference, the cooldown check rejects
exactly when some entry of the recent-references list has the same
normalized reference and a parsed `dateUsed` within the last 21 days of
the current time (boundary `now - 21*86400000`, inclusive); a reference
used 20 days ago is rejected with the reason string and the prior-use
date, the identical reference used 22 days ago is accepted; an absent
reference always passes. -/
theorem C6_reference_cooldown :
    (∀ parseMs now entries lookback,
        isScriptureFresh parseMs now "" entries lookback = .ok)
    ∧ (∀ parseMs now r entries, r ≠ "" →
        (isScriptureFresh parseMs now r entries ≠ .ok ↔
          ∃ e ∈ entries, now - 21 * 86400000 ≤ parseMs e.dateUsed
            ∧ ContentTracker.normalize e.reference = ContentTracker.normalize r))
    ∧ isScriptureFresh pmDays now100 "John 3:16" [⟨"John 3:16", "d20"⟩]
        = .notOk "Scripture used in last 21 days" "d20"
    ∧ isScriptureFresh pmDays now100 "John 3:16" [⟨"John 3:16", "d22"⟩] = .ok := by
  refine ⟨?_, ?_, by decide, by decide⟩
  · intro parseMs now entries lookback
    simp [isScriptureFresh]
  · intro parseMs now r entries hr
    exact isScriptureFresh_ne_ok_iff parseMs now r entries hr

/-- C6 witness: the general part of the theorem applied at a concrete
non-empty reference with one matching recent entry, discharging the
non-empty-reference hypothesis and the existential by computation. -/
theorem C6_reference_cooldown_witness :
    isScriptureFresh pmZero 0 "Psalm 23" [⟨"Psalm 23", "d"⟩] ≠ .ok :=
  (C6_reference_cooldown.2.1 pmZero 0 "Psalm 23" [⟨"Psalm 23", "d"⟩] (by decide)).mpr
    ⟨⟨"Psalm 23", "d"⟩, List.mem_singleton.mpr rfl, by decide, rfl⟩

/-- C8 counterexample: `validate` is not a pure function of the pair
(candidate, history): with the same candidate and the same history, the
result also depends on the current time read inside the reference
cooldown check, so two invocations at different times disagree. -/
theorem C8_counterexample :
    validate pmZero 0 cRefOnly hRefOnly
      ≠ validate pmZero (22 * 86400000) cRefOnly hRefOnly := by decide

/-- C8 amended: `validate` is a pure function of (candidate, history,
current time): it mutates nothing and reads only the `titles`,
`contentHashes` and `recentScriptures` fields of the history, so any two
histories agreeing on those three fields validate identically; and for a
candidate carrying no reference the result is independent of the current
time. -/
theorem C8_validate_pure_amended (parseMs : String → Int) (now now' : Int)
    (d : Devotional) (h h' : HistoryData)
    (h1 : h.titles = h'.titles) (h2 : h.contentHashes = h'.contentHashes)
    (h3 : h.recentScriptures = h'.recentScriptures) :
    validate parseMs now d h = validate parseMs now d h'
    ∧ (d.scriptureReference = "" →
        validate parseMs now d h = validate parseMs now' d h) := by
  constructor
  · simp only [validate, h1, h2, h3]
  · intro href
    simp only [validate, href]
    simp [isScriptureFresh]

/-- C8 witness: the amended theorem applied at a concrete candidate and
two concrete histories differing only in fields `validate` does not
read. -/
theorem C8_validate_pure_amended_witness :
    validate pmZero 5 cRefOnly hRefOnly
      = validate pmZero 5 cRefOnly
          { hRefOnly with themes := [⟨"courage", "2024-01-01", "Old Title"⟩],
                          lastUpdated := "changed" } :=
  (C8_validate_pure_amended pmZero 5 7 cRefOnly hRefOnly
    { hRefOnly with themes := [⟨"courage", "2024-01-01", "Old Title"⟩],
                    lastUpdated := "changed" } rfl rfl rfl).1

namespace ContentTracker

theorem length_takeLast (n : Nat) (l : List RecentEntry) :
    (takeLast n l).length = min n l.length := by
  simp only [takeLast, List.length_drop]
  omega

theorem takeLast_all (n : Nat) (l : List RecentEntry) (h : l.length ≤ n) :
    takeLast n l = l := by
  simp only [takeLast, Nat.sub_eq_zero_of_le h, List.drop_zero]

theorem capRecent_takeLast_append (L : List RecentEntry) (e : RecentEntry) :
    capRecent (takeLast 180 L ++ [e]) = takeLast 180 (L ++ [e]) := by
  rcases Nat.lt_or_ge L.length 180 with h | h
  · rw [takeLast_all 180 L (Nat.le_of_lt h)]
    have hlen : (L ++ [e]).length = L.length + 1 := by simp
    rw [takeLast_all 180 (L ++ [e]) (by omega)]
    simp only [capRecent]
    rw [if_neg (by omega)]
  · have hlen : (takeLast 180 L).length = 180 := by
      rw [length_takeLast]; omega
    have hlen2 : (takeLast 180 L ++ [e]).length = 181 := by
      simp [hlen]
    simp only [capRecent]
    rw [if_pos (by omega), hlen2]
    have h181 : 181 - 180 = 1 := by norm_num
    rw [h181, List.drop_append_of_le_length (by omega)]
    simp only [takeLast, List.drop_drop]
    have hL1 : (L ++ [e]).length = L.length + 1 := by simp
    rw [hL1, List.drop_append_of_le_length (by omega)]
    congr 2
    omega

theorem records_recentScriptures (today nowIso : String) :
    ∀ (ds : List Devotional) (h : HistoryData) (L : List RecentEntry),
      h.recentScriptures = takeLast 180 L →
      (records today nowIso ds h).recentScriptures
        = takeLast 180 (L ++ fullRefs today ds) := by
  intro ds
  induction ds with
  | nil =>
    intro h L hL
    simpa [records, fullRefs] using hL
  | cons d ds ih =>
    intro h L hL
    have hrec : records today nowIso (d :: ds) h
        = records today nowIso ds (record today nowIso d h) := rfl
    rw [hrec]
    by_cases hrf : d.scriptureReference = ""
    · have h1 : (record today nowIso d h).recentScriptures = takeLast 180 L := by
        simp [record, hrf, hL]
      have h2 : fullRefs today (d :: ds) = fullRefs today ds := by
        simp [fullRefs, hrf]
      rw [h2]
      exact ih _ L h1
    · have h1 : (record today nowIso d h).recentScriptures
          = takeLast 180
              (L ++ [⟨d.scriptureReference, if d.date = "" then today else d.date⟩]) := by
        simp only [record, hrf, if_neg hrf, hL]
        exact capRecent_takeLast_append L _
      have h2 : fullRefs today (d :: ds)
          = ⟨d.scriptureReference, if d.date = "" then today else d.date⟩
              :: fullRefs today ds := by
        simp [fullRefs, hrf]
      rw [h2, show (⟨d.scriptureReference, if d.date = "" then today else d.date⟩
              :: fullRefs today ds)
            = [(⟨d.scriptureReference, if d.date = "" then today else d.date⟩ : RecentEntry)]
              ++ fullRefs today ds from rfl,
        ← List.append_assoc]
      exact ih _ _ h1

end ContentTracker

/-- C7: starting from an empty store, after any sequence of `record`
appends the recent-references list equals the last (at most) 180 entries
of the full appended reference sequence; in particular it never exceeds
180 entries and is always a suffix of the appended sequence truncated
from the front, and after appending 200 distinct references it contains
exactly the last 180 in original insertion order. -/
theorem C7_recent_cap :
    (∀ today nowIso n0 ds,
        (records today nowIso ds (freshData n0)).recentScriptures
          = takeLast 180 (fullRefs today ds))
    ∧ (∀ today nowIso n0 ds,
        (records today nowIso ds (freshData n0)).recentScriptures.length ≤ 180)
    ∧ (∀ today nowIso n0 ds,
        (records today nowIso ds (freshData n0)).recentScriptures <:+ fullRefs today ds)
    ∧ (records "2025-01-01" "2025-01-01T00:00:00" ds200 (freshData "z")).recentScriptures
        = expected180 := by
  have hmain : ∀ today nowIso n0 ds,
      (records today nowIso ds (freshData n0)).recentScriptures
        = takeLast 180 (fullRefs today ds) := by
    intro today nowIso n0 ds
    have h0 : (freshData n0).recentScriptures = takeLast 180 [] := rfl
    simpa using records_recentScriptures today nowIso ds (freshData n0) [] h0
  refine ⟨hmain, ?_, ?_, ?_⟩
  · intro today nowIso n0 ds
    rw [hmain]
    rw [length_takeLast]
    omega
  · intro today nowIso n0 ds
    rw [hmain]
    exact List.drop_suffix _ _
  · rw [hmain]
    decide

namespace Gen

theorem tryFrom_congr (parseMs : String → Int) (now : Int) (today : String)
    (gen gen' : Nat → Draft) (h : HistoryData) :
    ∀ fuel i, (∀ j, j < i + fuel → gen j = gen' j) →
      tryFrom parseMs now today gen h i fuel = tryFrom parseMs now today gen' h i fuel := by
  intro fuel
  induction fuel with
  | zero => intro i _; rfl
  | succ fuel ih =>
    intro i hag
    have hi : gen i = gen' i := hag i (by omega)
    simp only [tryFrom, hi]
    rcases hv : validate parseMs now (mkCandidate today (gen' i)) h
      with _ | ⟨r, s⟩ | ⟨r, s⟩ | ⟨r, s⟩
    · rfl
    all_goals
      exact ih (i + 1) (fun j hj => hag j (by omega))

theorem tryFrom_none (parseMs : String → Int) (now : Int) (today : String)
    (gen : Nat → Draft) (h : HistoryData) :
    ∀ fuel i,
      (∀ j, j < i + fuel → validate parseMs now (mkCandidate today (gen j)) h ≠ .ok) →
      tryFrom parseMs now today gen h i fuel = none := by
  intro fuel
  induction fuel with
  | zero => intro i _; rfl
  | succ fuel ih =>
    intro i hrej
    have hi : validate parseMs now (mkCandidate today (gen i)) h ≠ .ok :=
      hrej i (by omega)
    rcases hv : validate parseMs now (mkCandidate today (gen i)) h
      with _ | ⟨r, s⟩ | ⟨r, s⟩ | ⟨r, s⟩
    · exact absurd hv hi
    all_goals
      simp only [tryFrom, hv]
      exact ih (i + 1) (fun j hj => hrej j (by omega))

end Gen

/-- C1: the controller performs at most `MAX_TRIES` (5) draft&#47;validate
cycles — the loop result depends only on the first `MAX_TRIES` generator
answers — and when every cycle is rejected it does not fail: it makes
one final unconstrained generator call (index `MAX_TRIES`),
force-accepts its result with the literal date suffix appended to the
title, and records it into history exactly once (one new title entry and
one new content-hash entry) with no further validation of the fallback
candidate (the conclusion holds with no hypothesis on the fallback
draft). -/
theorem C1_controller_bounded_fallback :
    (∀ parseMs now today gen gen' h, (∀ i, i < MAX_TRIES → gen i = gen' i) →
        tryFrom parseMs now today gen h 0 MAX_TRIES
          = tryFrom parseMs now today gen' h 0 MAX_TRIES)
    ∧ (∀ parseMs now today nowIso gen h,
        (∀ i, i < MAX_TRIES → validate parseMs now (mkCandidate today (gen i)) h ≠ .ok) →
        tryFrom parseMs now today gen h 0 MAX_TRIES = none
        ∧ runResult parseMs now today gen h = fallbackResult today (gen MAX_TRIES)
        ∧ (runResult parseMs now today gen h).title
            = trimStr (if (gen MAX_TRIES).title = "" then "Rock Solid Man"
                else (gen MAX_TRIES).title) ++ " — " ++ today
        ∧ (runFinalHistory parseMs now today nowIso gen h).titles.length
            = h.titles.length + 1
        ∧ (runFinalHistory parseMs now today nowIso gen h).contentHashes.length
            = h.contentHashes.length + 1) := by
  constructor
  · intro parseMs now today gen gen' h hag
    exact tryFrom_congr parseMs now today gen gen' h MAX_TRIES 0
      (fun j hj => hag j (by simpa using hj))
  · intro parseMs now today nowIso gen h hrej
    have hnone : tryFrom parseMs now today gen h 0 MAX_TRIES = none :=
      tryFrom_none parseMs now today gen h MAX_TRIES 0
        (fun j hj => hrej j (by simpa using hj))
    have hrun : runResult parseMs now today gen h = fallbackResult today (gen MAX_TRIES) := by
      simp [runResult, hnone]
    refine ⟨hnone, hrun, ?_, ?_, ?_⟩
    · rw [hrun]; rfl
    · simp [runFinalHistory, record]
    · simp [runFinalHistory, record]

/-- C1 witness: the fallback branch of the theorem applied at a concrete
generator that always reproduces an already-stored title, so all five
loop attempts are rejected; every hypothesis is discharged by
computation. -/
theorem C1_controller_bounded_fallback_witness :
    tryFrom pmZero 0 "2025-01-02" genStuck hWalking 0 MAX_TRIES = none
    ∧ runResult pmZero 0 "2025-01-02" genStuck hWalking
        = fallbackResult "2025-01-02" (genStuck MAX_TRIES)
    ∧ (runResult pmZero 0 "2025-01-02" genStuck hWalking).title
        = trimStr (if (genStuck MAX_TRIES).title = "" then "Rock Solid Man"
            else (genStuck MAX_TRIES).title) ++ " — " ++ "2025-01-02"
    ∧ (runFinalHistory pmZero 0 "2025-01-02" "2025-01-02T00:00" genStuck hWalking).titles.length
        = hWalking.titles.length + 1
    ∧ (runFinalHistory pmZero 0 "2025-01-02" "2025-01-02T00:00"
          genStuck hWalking).contentHashes.length
        = hWalking.contentHashes.length + 1 :=
  C1_controller_bounded_fallback.2 pmZero 0 "2025-01-02" "2025-01-02T00:00"
    genStuck hWalking (by decide)
